import Mathlib

/-!
Shallow embedding of `src/working.py` (ProductAnalyzer, InventoryManager,
SalesAnalytics). Python numbers are modelled as `ℚ` (amounts, prices) and
`Int` (counts, stock); dictionaries as insertion-ordered association lists,
matching Python dict semantics; functions that can raise (ZeroDivisionError,
IndexError) return `Option`.
-/

/-- A product record as loaded from the JSON `products` list. -/
structure Product where
  name : String
  price : ℚ
  quantity : Int
  category : String
  stock : Int
deriving DecidableEq, Repr

/-- An entry of the intermediate `product_revenues` list built by
`get_top_products`: name, computed revenue, category. -/
structure RevEntry where
  name : String
  revenue : ℚ
  category : String
deriving DecidableEq, Repr

/-- Embeds `ProductAnalyzer.get_top_products`, step 1: build `product_revenues`
from one product (`rev = product['price'] * product['quantity']`). -/
def toRevEntry (p : Product) : RevEntry :=
  ⟨p.name, p.price * (p.quantity : ℚ), p.category⟩

/-- One step of the inner bubble-sort loop of `get_top_products`, carrying the
element currently at position `j`: compare with the next element and swap when
`product_revenues[j]['revenue'] < product_revenues[j+1]['revenue']`. -/
def onePassAux (x : RevEntry) : List RevEntry → List RevEntry
  | [] => [x]
  | b :: rest =>
      if x.revenue < b.revenue then b :: onePassAux x rest
      else x :: onePassAux b rest

/-- One full execution of the inner loop `for j in range(len(l) - 1)`. -/
def onePass : List RevEntry → List RevEntry
  | [] => []
  | a :: rest => onePassAux a rest

/-- The outer loop `for i in range(len(product_revenues))`: `n` bubble passes. -/
def bubble : Nat → List RevEntry → List RevEntry
  | 0, l => l
  | n + 1, l => bubble n (onePass l)

/-- Embeds `ProductAnalyzer.get_top_products(n)`: build `product_revenues`, bubble-sort
it descending by revenue, return the slice `[0:n]`. -/
def get_top_products (products : List Product) (n : Nat) : List RevEntry :=
  let l := products.map toRevEntry
  (bubble l.length l).take n

/-- Embeds `ProductAnalyzer.calculate_average_price`: sums prices and divides by the
count with no zero check; on an empty product list Python raises
`ZeroDivisionError`, modelled as `none`. -/
def calculate_average_price (products : List Product) : Option ℚ :=
  let total := (products.map Product.price).sum
  let count := products.length
  if count = 0 then none else some (total / (count : ℚ))

/-- Embeds `ProductAnalyzer.get_low_stock_items(threshold)`: collects the names of
products with `product['quantity'] < threshold` (the code reads the
`quantity` key, not `stock`). -/
def get_low_stock_items (products : List Product) (threshold : Int) : List String :=
  (products.filter (fun p => decide (p.quantity < threshold))).map Product.name

/-- Embeds `ProductAnalyzer.calculate_discount_price(name, percent)`: for the first
product whose name matches, returns `price - percent` (a flat subtraction);
`none` models Python's `return None` when no product matches. -/
def calculate_discount_price (products : List Product) (product_name : String)
    (discount_percent : ℚ) : Option ℚ :=
  match products.find? (fun p => p.name == product_name) with
  | some p => some (p.price - discount_percent)
  | none => none

/-- Embeds `ProductAnalyzer.categorize_products` body for one product: append the
product to its category's list in `self.categories`, creating the key (at the
end, Python dict insertion order) when absent. -/
def addToCategory (cats : List (String × List Product)) (c : String) (p : Product) :
    List (String × List Product) :=
  match cats with
  | [] => [(c, [p])]
  | (k, l) :: rest =>
      if k = c then (k, l ++ [p]) :: rest else (k, l) :: addToCategory rest c p

/-- Embeds `ProductAnalyzer.categorize_products`: folds every product into the
persistent `self.categories` mapping without clearing it first. -/
def categorize_products (cats : List (String × List Product)) :
    List Product → List (String × List Product)
  | [] => cats
  | p :: ps => categorize_products (addToCategory cats p.category p) ps

/-- Dictionary lookup in the categories mapping, `[]` when the key is absent
(used only to state properties; the code itself never looks up). -/
def lookupCat (c : String) : List (String × List Product) → List Product
  | [] => []
  | (k, l) :: rest => if k = c then l else lookupCat c rest

/-- An `InventoryManager` record value: `{'name', 'stock', 'price',
'last_updated'}`; the `datetime.now()` timestamp is modelled as an abstract
`Nat` supplied by the environment. -/
structure InvRecord where
  name : String
  stock : Int
  price : ℚ
  last_updated : Nat
deriving DecidableEq, Repr

/-- The `self.inventory` dict: insertion-ordered association list keyed by
product id. -/
abbrev Inventory := List (String × InvRecord)

/-- Python dict assignment `d[k] = v`: replace in place if the key exists,
else append. -/
def dictSet (inv : Inventory) (id : String) (r : InvRecord) : Inventory :=
  match inv with
  | [] => [(id, r)]
  | (k, v) :: rest =>
      if k = id then (k, r) :: rest else (k, v) :: dictSet rest id r

/-- Dict lookup on the inventory, `none` when the id is absent. -/
def invLookup (id : String) : Inventory → Option InvRecord
  | [] => none
  | (k, v) :: rest => if k = id then some v else invLookup id rest

/-- Embeds `InventoryManager.add_product(product_id, name, stock, price)`: stores the
record unconditionally — the code performs no validation of `stock` or
`price`. `now` models `datetime.now()`. -/
def add_product (inv : Inventory) (product_id name : String) (stock : Int)
    (price : ℚ) (now : Nat) : Inventory :=
  dictSet inv product_id ⟨name, stock, price, now⟩

/-- Embeds `InventoryManager.get_out_of_stock`: collects names of records whose
`stock == 0` (exact equality; negative stock is not flagged). -/
def get_out_of_stock (inv : Inventory) : List String :=
  (inv.filter (fun kv => decide (kv.2.stock = 0))).map (fun kv => kv.2.name)

/-- The `self.daily_sales` dict of `SalesAnalytics`: date → ordered list of
sale amounts, insertion-ordered by first occurrence of the date. -/
abbrev DailySales := List (String × List ℚ)

/-- Dict lookup `self.daily_sales[date]`, `[]` when absent (inside
`calculate_moving_average` the date always comes from the key list). -/
def salesAt (d : String) : DailySales → List ℚ
  | [] => []
  | (k, v) :: rest => if k = d then v else salesAt d rest

/-- Python's `<` on strings: lexicographic comparison of the code-point
sequences (a proper prefix is smaller). -/
def strLtList : List Char → List Char → Bool
  | _, [] => false
  | [], _ :: _ => true
  | a :: as, b :: bs => if a < b then true else if a = b then strLtList as bs else false

/-- Python's `<=` on strings: `a <= b` iff `¬ b < a`. -/
def strLe (a b : String) : Bool :=
  ! strLtList b.toList a.toList

/-- Insert one date into an already sorted list of dates (helper for
modelling Python's `sorted`; dict keys are unique so stability is moot). -/
def insertSorted (d : String) : List String → List String
  | [] => [d]
  | e :: rest => if strLe d e then d :: e :: rest else e :: insertSorted d rest

/-- Python's `sorted(self.daily_sales.keys())`: lexicographically sorted
date list. -/
def sortDates : List String → List String
  | [] => []
  | d :: rest => insertSorted d (sortDates rest)

/-- Python list indexing `l[j]` for an `int` index: non-negative indices from
the front, negative indices wrap from the end, out of range raises
`IndexError` (modelled as `none`). -/
def pyIdx (l : List String) (j : Int) : Option String :=
  if 0 ≤ j then l.get? j.toNat
  else if 0 ≤ (l.length : Int) + j then l.get? ((l.length : Int) + j).toNat
  else none

/-- The list `range(start, stop)` of Python `int`s. -/
def pyRange (start stop : Int) : List Int :=
  (List.range (stop - start).toNat).map (fun k => start + (k : Int))

/-- The body of `calculate_moving_average` for the `i`-th sorted date:
`start_idx = i - window_size + 1`, `end_idx = i + 1`, gather
`self.daily_sales[dates[j]]` for `j` in `range(start_idx, end_idx)` (negative
`j` wraps; out-of-range raises), then divide the sum by the window length
(raising on an empty window). -/
def movingAvgAt (ds : DailySales) (dates : List String) (window_size : Int)
    (i : Nat) : Option ℚ := do
  let start : Int := (i : Int) - window_size + 1
  let idxDates ← (pyRange start ((i : Int) + 1)).mapM (pyIdx dates)
  let window_data := idxDates.flatMap (fun d => salesAt d ds)
  if window_data.length = 0 then none
  else some (window_data.sum / (window_data.length : ℚ))

/-- Embeds `SalesAnalytics.calculate_moving_average(window_size)`: one entry per
sorted date, keyed by the date; `none` when any iteration raises. -/
def calculate_moving_average (ds : DailySales) (window_size : Int) :
    Option (List (String × ℚ)) :=
  let dates := sortDates (ds.map Prod.fst)
  dates.enum.mapM (fun kv => do
    let avg ← movingAvgAt ds dates window_size kv.1
    pure (kv.2, avg))

/-- Embeds `SalesAnalytics.find_peak_sales_day`: scan the daily-sales dict with
`max_sales = 0`, `peak_day = None`, updating only on a strictly greater
daily total. -/
def find_peak_sales_day (ds : DailySales) : Option String × ℚ :=
  ds.foldl
    (fun acc kv =>
      if acc.2 < kv.2.sum then (some kv.1, kv.2.sum) else acc)
    (none, 0)

/-- Embeds `SalesAnalytics.calculate_growth_rate(period1_sales, period2_sales)`:
divides by `period1_sales` with no zero check; `period1_sales == 0` raises
`ZeroDivisionError`, modelled as `none`. -/
def calculate_growth_rate (period1_sales period2_sales : ℚ) : Option ℚ :=
  if period1_sales = 0 then none
  else some ((period2_sales - period1_sales) / period1_sales * 100)

/-- Claim C1 (code evaluation at the spec's own example): over four dates with
single daily amounts `[10, 20, 30, 40]` and window size 3,
`calculate_moving_average` returns `[80/3, 70/3, 20, 30]`, not the
`[10, 15, 20, 30]` the specification requires — the negative start indices
produced at the beginning of history wrap around to the end of the date list
instead of being clamped. -/
theorem C1_moving_average_wraps_at_start :
    calculate_moving_average [("d1", [10]), ("d2", [20]), ("d3", [30]), ("d4", [40])] 3 =
      some [("d1", 80 / 3), ("d2", 70 / 3), ("d3", 20), ("d4", 30)] ∧
    some [("d1", (80 : ℚ) / 3), ("d2", 70 / 3), ("d3", 20), ("d4", 30)] ≠
      some [("d1", 10), ("d2", 15), ("d3", 20), ("d4", 30)] := by
  constructor
  · simp +decide only [calculate_moving_average, movingAvgAt, sortDates, insertSorted, strLe,
      strLtList, pyRange, pyIdx, salesAt, List.enum, List.range, List.range.loop, List.mapM,
      List.mapM.loop, List.map, List.flatMap, List.length, List.sum_cons, List.sum_nil,
      Option.bind, List.get?, List.reverse, List.reverseAux, List.append, List.flatten]
    simp
    norm_num
  · intro h
    simp only [Option.some_inj, List.cons.injEq, Prod.mk.injEq] at h
    have : (80 : ℚ) / 3 = 10 := h.1.2
    norm_num at this

/-- Claim C3 (code evaluation at the failing input): on an empty product list
`calculate_average_price` divides by zero — a raised `ZeroDivisionError`
(`none`), not the graceful `0` the specification requires. -/
theorem C3_average_price_empty_faults :
    calculate_average_price [] = none := rfl

/-- Claim C4 (code evaluation at the failing input): `calculate_growth_rate 0 50`
divides by the zero first-period value — a raised `ZeroDivisionError` (`none`),
not the defined infinite/undefined sentinel the specification requires. -/
theorem C4_growth_rate_zero_faults :
    calculate_growth_rate 0 50 = none := rfl

/-- Claim C5 (code evaluation at the failing input): on a product with stock 5
but quantity 15 and a product with stock 15 but quantity 5,
`get_low_stock_items` with threshold 10 returns the name of the quantity-5
item ("Widget", whose stock is 15) — the code filters on the `quantity` key,
not on `stock` as the specification requires. -/
theorem C5_low_stock_uses_quantity :
    get_low_stock_items
      [⟨"Gadget", 1, 15, "Electronics", 5⟩, ⟨"Widget", 1, 5, "Electronics", 15⟩] 10 =
      ["Widget"] := rfl

/-- Claim C6 (code evaluation at the failing input): a 20 percent discount on a
price-50 product returns `50 - 20 = 30`, not the `50 × (1 - 20/100) = 40` the
specification's multiplicative formula requires — the code subtracts the raw
percentage from the price. -/
theorem C6_discount_is_flat_subtraction :
    calculate_discount_price [⟨"Widget", 50, 1, "Electronics", 0⟩] "Widget" 20 =
      some 30 ∧ (30 : ℚ) ≠ 50 * (1 - 20 / 100) := by
  constructor
  · simp only [calculate_discount_price, List.find?]
    norm_num
  · norm_num

/-- Claim C7 (code evaluation at the failing input): on an inventory holding a
stock-0 record and a stock-(-3) record, `get_out_of_stock` returns only the
stock-0 name — the code tests `stock == 0` exactly, so the negative-stock item
the specification requires is missing. -/
theorem C7_out_of_stock_misses_negative :
    get_out_of_stock
      [("P1", ⟨"ZeroItem", 0, 1, 0⟩), ("P2", ⟨"NegItem", -3, 1, 0⟩)] = ["ZeroItem"] := rfl

/-- Claim C8 (code evaluation at the failing input): `add_product` with stock
`-5` inserts the record unchanged into the inventory — the code performs no
validation, so the negative-stock record the specification requires to be
rejected is stored. -/
theorem C8_add_product_accepts_negative :
    invLookup "P1" (add_product [] "P1" "Widget" (-5) 10 0) =
      some ⟨"Widget", -5, 10, 0⟩ := rfl

/-- Claim C9: when every day's total sales amount is at most 0,
`find_peak_sales_day` returns `(None, 0)`, exactly as on an empty mapping,
because a day is selected only when its total strictly exceeds the running
maximum initialised to 0. -/
theorem C9_peak_day_nonpositive_totals (ds : DailySales)
    (h : ∀ kv ∈ ds, kv.2.sum ≤ 0) :
    find_peak_sales_day ds = (none, 0) := by
  show ds.foldl _ ((none : Option String), (0 : ℚ)) = (none, 0)
  induction ds with
  | nil => rfl
  | cons kv rest ih =>
    rw [List.foldl_cons, if_neg (not_lt.mpr (h kv (List.mem_cons_self kv rest)))]
    exact ih fun x hx => h x (List.mem_cons_of_mem kv hx)

/-- Claim C9, witness: the hypothesis and conclusion of
`C9_peak_day_nonpositive_totals` hold at the concrete non-empty mapping
`[("d1", [0]), ("d2", [-3])]`. -/
theorem C9_peak_day_witness :
    (∀ kv ∈ ([("d1", [0]), ("d2", [-3])] : DailySales), kv.2.sum ≤ 0) ∧
      find_peak_sales_day [("d1", [0]), ("d2", [-3])] = (none, 0) :=
  ⟨by simp, C9_peak_day_nonpositive_totals _ (by simp)⟩

theorem onePassAux_perm (x : RevEntry) (l : List RevEntry) :
    (onePassAux x l).Perm (x :: l) := by
  induction l generalizing x with
  | nil => exact List.Perm.refl _
  | cons b rest ih =>
    by_cases h : x.revenue < b.revenue
    · simp only [onePassAux, if_pos h]
      exact ((ih x).cons b).trans (List.Perm.swap x b rest)
    · simp only [onePassAux, if_neg h]
      exact (ih b).cons x

theorem onePass_perm (l : List RevEntry) : (onePass l).Perm l := by
  cases l with
  | nil => exact List.Perm.refl _
  | cons a rest => exact onePassAux_perm a rest

theorem onePassAux_last (x : RevEntry) (l : List RevEntry) :
    ∃ ys m, onePassAux x l = ys ++ [m] ∧ ∀ z ∈ x :: l, m.revenue ≤ z.revenue := by
  induction l generalizing x with
  | nil =>
    refine ⟨[], x, rfl, ?_⟩
    intro z hz
    rw [List.mem_singleton.mp hz]
  | cons b rest ih =>
    by_cases h : x.revenue < b.revenue
    · obtain ⟨ys, m, heq, hmin⟩ := ih x
      refine ⟨b :: ys, m, by simp only [onePassAux, if_pos h, heq, List.cons_append], ?_⟩
      intro z hz
      rcases List.mem_cons.mp hz with rfl | hz'
      · exact hmin z (List.mem_cons_self z rest)
      · rcases List.mem_cons.mp hz' with rfl | hz''
        · exact le_trans (hmin x (List.mem_cons_self x rest)) (le_of_lt h)
        · exact hmin z (List.mem_cons_of_mem x hz'')
    · obtain ⟨ys, m, heq, hmin⟩ := ih b
      refine ⟨x :: ys, m, by simp only [onePassAux, if_neg h, heq, List.cons_append], ?_⟩
      intro z hz
      rcases List.mem_cons.mp hz with rfl | hz'
      · exact le_trans (hmin b (List.mem_cons_self b rest)) (not_lt.mp h)
      · exact hmin z hz'

theorem onePassAux_append (x m : RevEntry) (ys : List RevEntry)
    (hx : m.revenue ≤ x.revenue) (hys : ∀ z ∈ ys, m.revenue ≤ z.revenue) :
    onePassAux x (ys ++ [m]) = onePassAux x ys ++ [m] := by
  induction ys generalizing x with
  | nil =>
    simp only [List.nil_append, onePassAux, if_neg (not_lt.mpr hx)]
    rfl
  | cons b rest ih =>
    by_cases h : x.revenue < b.revenue
    · simp only [List.cons_append, onePassAux, if_pos h, List.append_eq]
      rw [ih x hx (fun z hz => hys z (List.mem_cons_of_mem b hz))]
    · simp only [List.cons_append, onePassAux, if_neg h, List.append_eq]
      rw [ih b (hys b (List.mem_cons_self b rest))
        (fun z hz => hys z (List.mem_cons_of_mem b hz))]

theorem onePass_append (m : RevEntry) (ys : List RevEntry)
    (hys : ∀ z ∈ ys, m.revenue ≤ z.revenue) :
    onePass (ys ++ [m]) = onePass ys ++ [m] := by
  cases ys with
  | nil => rfl
  | cons a ys' =>
    exact onePassAux_append a m ys' (hys a (List.mem_cons_self a ys'))
      (fun z hz => hys z (List.mem_cons_of_mem a hz))

theorem bubble_append (n : Nat) (m : RevEntry) (ys : List RevEntry)
    (hys : ∀ z ∈ ys, m.revenue ≤ z.revenue) :
    bubble n (ys ++ [m]) = bubble n ys ++ [m] := by
  induction n generalizing ys with
  | zero => rfl
  | succ k ih =>
    show bubble k (onePass (ys ++ [m])) = bubble k (onePass ys) ++ [m]
    rw [onePass_append m ys hys]
    exact ih (onePass ys) (fun z hz => hys z ((onePass_perm ys).mem_iff.mp hz))

theorem bubble_perm (n : Nat) (l : List RevEntry) : (bubble n l).Perm l := by
  induction n generalizing l with
  | zero => exact List.Perm.refl _
  | succ k ih => exact (ih (onePass l)).trans (onePass_perm l)

theorem bubble_sorted (n : Nat) :
    ∀ l : List RevEntry, l.length ≤ n →
      (bubble n l).Sorted (fun a b => b.revenue ≤ a.revenue) := by
  induction n with
  | zero =>
    intro l hl
    rw [List.length_eq_zero.mp (Nat.le_zero.mp hl)]
    exact List.sorted_nil
  | succ k ih =>
    intro l hl
    cases l with
    | nil =>
      show (bubble k (onePass [])).Sorted _
      exact ih [] (Nat.zero_le k)
    | cons a rest =>
      show (bubble k (onePassAux a rest)).Sorted _
      obtain ⟨ys, m, heq, hmin⟩ := onePassAux_last a rest
      have hysmem : ∀ z ∈ ys, m.revenue ≤ z.revenue := by
        intro z hz
        have hz2 : z ∈ onePassAux a rest := heq ▸ List.mem_append_left [m] hz
        exact hmin z ((onePassAux_perm a rest).mem_iff.mp hz2)
      rw [heq, bubble_append k m ys hysmem]
      have hlen : ys.length ≤ k := by
        have h1 : (onePassAux a rest).length = rest.length + 1 :=
          (onePassAux_perm a rest).length_eq.trans (List.length_cons a rest)
        rw [heq, List.length_append, List.length_singleton] at h1
        have h2 : rest.length + 1 ≤ k + 1 := by simpa using hl
        omega
      refine List.pairwise_append.mpr ⟨ih ys hlen, List.pairwise_singleton _ m, ?_⟩
      intro x hx y hy
      rw [List.mem_singleton.mp hy]
      exact hysmem x ((bubble_perm k ys).mem_iff.mp hx)

theorem onePassAux_filter (q : ℚ) (x : RevEntry) (l : List RevEntry) :
    (onePassAux x l).filter (fun z => decide (z.revenue = q)) =
      (x :: l).filter (fun z => decide (z.revenue = q)) := by
  induction l generalizing x with
  | nil => rfl
  | cons b rest ih =>
    by_cases h : x.revenue < b.revenue
    · simp only [onePassAux, if_pos h, List.filter_cons, ih x]
      by_cases hb : b.revenue = q
      · have hx : ¬ x.revenue = q := fun hxq => absurd h (by rw [hxq, hb]; exact lt_irrefl q)
        simp [hb, hx]
      · simp [hb]
    · simp only [onePassAux, if_neg h, List.filter_cons, ih b]

theorem onePass_filter (q : ℚ) (l : List RevEntry) :
    (onePass l).filter (fun z => decide (z.revenue = q)) =
      l.filter (fun z => decide (z.revenue = q)) := by
  cases l with
  | nil => rfl
  | cons a rest => exact onePassAux_filter q a rest

theorem bubble_filter (q : ℚ) (n : Nat) (l : List RevEntry) :
    (bubble n l).filter (fun z => decide (z.revenue = q)) =
      l.filter (fun z => decide (z.revenue = q)) := by
  induction n generalizing l with
  | zero => rfl
  | succ k ih =>
    show (bubble k (onePass l)).filter _ = _
    rw [ih (onePass l), onePass_filter]

/-- Claim C2: for every product list and every `n`, `get_top_products n`
returns exactly `min n |products|` entries, sorted in descending order of
revenue; the output is the length-`n` prefix of a single list `s` that is a
permutation of the revenue entries derived from the input (so the output has
no duplicated or fabricated entries), `s` is sorted descending by revenue, and
for every revenue value the entries carrying it appear in `s` in their
original input order (stable tie-breaking, first-seen wins). When `n` exceeds
the product count the slice simply returns all entries, without error. -/
theorem C2_top_products_sorted_stable (products : List Product) (n : Nat) :
    (get_top_products products n).length = min n products.length ∧
    (get_top_products products n).Sorted (fun a b => b.revenue ≤ a.revenue) ∧
    ∃ s : List RevEntry,
      s.Perm (products.map toRevEntry) ∧
      get_top_products products n = s.take n ∧
      s.Sorted (fun a b => b.revenue ≤ a.revenue) ∧
      ∀ q : ℚ, s.filter (fun z => decide (z.revenue = q)) =
        (products.map toRevEntry).filter (fun z => decide (z.revenue = q)) := by
  have hsorted : (bubble (products.map toRevEntry).length (products.map toRevEntry)).Sorted
      (fun a b => b.revenue ≤ a.revenue) :=
    bubble_sorted (products.map toRevEntry).length (products.map toRevEntry) le_rfl
  refine ⟨?_, ?_, bubble (products.map toRevEntry).length (products.map toRevEntry),
    bubble_perm _ _, rfl, hsorted, fun q => bubble_filter q _ _⟩
  · show ((bubble _ _).take n).length = _
    rw [List.length_take, (bubble_perm _ _).length_eq, List.length_map]
  · exact hsorted.sublist (List.take_sublist n _)

theorem lookupCat_addToCategory (c c' : String) (p : Product)
    (cats : List (String × List Product)) :
    lookupCat c (addToCategory cats c' p) =
      if c = c' then lookupCat c cats ++ [p] else lookupCat c cats := by
  induction cats with
  | nil =>
    by_cases h : c = c'
    · subst h
      simp [addToCategory, lookupCat]
    · have h' : ¬ c' = c := fun hn => h hn.symm
      simp [addToCategory, lookupCat, h, h']
  | cons kv rest ih =>
    obtain ⟨k, l⟩ := kv
    by_cases hk : k = c'
    · subst hk
      simp only [addToCategory, if_pos rfl]
      by_cases hc : k = c
      · subst hc
        simp [lookupCat]
      · have hcc : ¬ c = k := fun hn => hc hn.symm
        simp [lookupCat, hc, hcc]
    · simp only [addToCategory, if_neg hk]
      by_cases hc : k = c
      · subst hc
        simp [lookupCat, hk]
      · simp [lookupCat, hc, ih]

theorem lookupCat_categorize (c : String) (ps : List Product)
    (cats : List (String × List Product)) :
    lookupCat c (categorize_products cats ps) =
      lookupCat c cats ++ ps.filter (fun p => decide (p.category = c)) := by
  induction ps generalizing cats with
  | nil => simp [show categorize_products cats [] = cats from rfl]
  | cons p ps' ih =>
    show lookupCat c (categorize_products (addToCategory cats p.category p) ps') = _
    rw [ih, lookupCat_addToCategory]
    by_cases h : c = p.category
    · subst h
      simp [List.filter_cons, List.append_assoc]
    · have h2 : ¬ p.category = c := fun hn => h hn.symm
      simp [h, List.filter_cons, h2]

/-- Claim C10: `categorize_products` appends into the persistent categories
mapping without clearing it, so running it twice on the same non-empty product
list leaves each category's list holding the products of that category twice
over (the category's filtered sublist, concatenated with itself); in
particular the double run differs from the single run, so the operation is not
idempotent. -/
theorem C10_categorize_not_idempotent (ps : List Product) (h : ps ≠ []) :
    (∀ c, lookupCat c (categorize_products (categorize_products [] ps) ps) =
        ps.filter (fun p => decide (p.category = c)) ++
          ps.filter (fun p => decide (p.category = c))) ∧
    categorize_products (categorize_products [] ps) ps ≠ categorize_products [] ps := by
  have hsingle : ∀ c, lookupCat c (categorize_products [] ps) =
      ps.filter (fun p => decide (p.category = c)) := by
    intro c
    rw [lookupCat_categorize]
    rfl
  have hdouble : ∀ c, lookupCat c (categorize_products (categorize_products [] ps) ps) =
      ps.filter (fun p => decide (p.category = c)) ++
        ps.filter (fun p => decide (p.category = c)) := by
    intro c
    rw [lookupCat_categorize, hsingle]
  refine ⟨hdouble, fun heq => ?_⟩
  obtain ⟨p, ps', rfl⟩ := List.exists_cons_of_ne_nil h
  have h1 := hdouble p.category
  rw [heq, hsingle] at h1
  have hpmem : p ∈ (p :: ps').filter (fun x => decide (x.category = p.category)) :=
    List.mem_filter.mpr ⟨List.mem_cons_self p ps', by simp⟩
  have hL : 0 < ((p :: ps').filter (fun x => decide (x.category = p.category))).length :=
    List.length_pos.mpr (List.ne_nil_of_mem hpmem)
  have hlen := congrArg List.length h1
  rw [List.length_append] at hlen
  omega

/-- Claim C10, witness: the hypothesis and conclusion of
`C10_categorize_not_idempotent` hold at the concrete one-product list
`[{name := "Laptop", category := "Electronics", ...}]`. -/
theorem C10_categorize_witness :
    (([⟨"Laptop", 1, 1, "Electronics", 45⟩] : List Product) ≠ []) ∧
      ((∀ c, lookupCat c
            (categorize_products
              (categorize_products [] [⟨"Laptop", 1, 1, "Electronics", 45⟩])
              [⟨"Laptop", 1, 1, "Electronics", 45⟩]) =
          ([⟨"Laptop", 1, 1, "Electronics", 45⟩] : List Product).filter
              (fun p => decide (p.category = c)) ++
            ([⟨"Laptop", 1, 1, "Electronics", 45⟩] : List Product).filter
              (fun p => decide (p.category = c))) ∧
        categorize_products
            (categorize_products [] [⟨"Laptop", 1, 1, "Electronics", 45⟩])
            [⟨"Laptop", 1, 1, "Electronics", 45⟩] ≠
          categorize_products [] [⟨"Laptop", 1, 1, "Electronics", 45⟩]) :=
  ⟨by simp, C10_categorize_not_idempotent _ (by simp)⟩
